import Mathlib

/-!
Verification of the tabular result serialization engine of `mysqlquerydump`
(`src/mysqlquerydump.go`): the SQL literal escaper `escapeString`, the SQL
batch-insert encoder `outSql`, the JSON line encoder `outJson`, and the
configuration merge `getDbOptions`.

Byte sequences are modelled as `List Nat` (each element one byte value);
Go strings appearing in SQL syntax are ASCII, so their byte sequence is the
list of their character code points.
-/

namespace MysqlQueryDump

/-- ASCII byte sequence of a Lean string literal (all literals used here are
ASCII, where the UTF-8 bytes coincide with the character code points). -/
def strBytes (s : String) : List Nat := s.data.map Char.toNat

/-- The loop body state of `escapeString` (src/mysqlquerydump.go:94-130):
for each input byte, decide whether a backslash is prefixed, and with which
(possibly substituted) byte the input byte is written.  Mirrors the Go
`switch char` statement: 0 → '0' escaped, '\n' → 'n' escaped, '\r' → 'r'
escaped, '\\', '\'', '"' escaped unchanged, 0x1A → 'Z' escaped, everything
else passed through unescaped. -/
def escapeSwitch (c : Nat) : Nat × Bool :=
  if c = 0 then (48, true)
  else if c = 10 then (110, true)
  else if c = 13 then (114, true)
  else if c = 92 then (92, true)
  else if c = 39 then (39, true)
  else if c = 34 then (34, true)
  else if c = 26 then (90, true)
  else (c, false)

/-- The write loop of `escapeString`: the accumulator is the output buffer
written so far (the Go code writes into a pre-allocated array at a running
index; the bytes written in order form this list). -/
def escapeLoop : List Nat → List Nat → List Nat
  | [], acc => acc
  | c :: rest, acc =>
      let s := escapeSwitch c
      escapeLoop rest (acc ++ (if s.2 then [92, s.1] else [s.1]))

/-- `escapeString` (src/mysqlquerydump.go:94-130): escape a byte sequence for
inclusion in a single-quoted SQL string literal. -/
def escapeString (bs : List Nat) : List Nat := escapeLoop bs []

/-- Per-byte encoding of the escaping rule, as the claims state it: 0x00 →
`\0`, 0x0A → `\n`, 0x0D → `\r`, 0x1A → `\Z`, backslash / single quote /
double quote → backslash followed by the byte, all else unchanged. -/
def escChar (c : Nat) : List Nat :=
  if c = 0 then [92, 48]
  else if c = 10 then [92, 110]
  else if c = 13 then [92, 114]
  else if c = 92 then [92, 92]
  else if c = 39 then [92, 39]
  else if c = 34 then [92, 34]
  else if c = 26 then [92, 90]
  else [c]

/-- Modelled from the spec and from claim C1: a standard SQL string-literal
body decoder.  A backslash consumes the next byte and un-escapes it
(`\0`, `\n`, `\r`, `\Z`, `\\`, `\'`, `\"`); any other byte stands for
itself.  This decoder is not part of the repository; it is the second side
of the round-trip property. -/
def decodeEsc (c : Nat) : Nat :=
  if c = 48 then 0
  else if c = 110 then 10
  else if c = 114 then 13
  else if c = 90 then 26
  else c

/-- Decode the body of a single-quoted SQL string literal (see `decodeEsc`). -/
def decodeSqlBody : List Nat → List Nat
  | [] => []
  | [c] => if c = 92 then [] else [c]
  | c :: d :: rest =>
      if c = 92 then decodeEsc d :: decodeSqlBody rest
      else c :: decodeSqlBody (d :: rest)

lemma escapeLoop_append (bs : List Nat) (acc : List Nat) :
    escapeLoop bs acc = acc ++ escapeLoop bs [] := by
  induction bs generalizing acc with
  | nil => simp [escapeLoop]
  | cons c rest ih =>
      simp only [escapeLoop, List.nil_append]
      conv_rhs => rw [ih]
      rw [ih]
      simp [List.append_assoc]

lemma escapeSwitch_spec (c : Nat) :
    (if (escapeSwitch c).2 then [92, (escapeSwitch c).1] else [(escapeSwitch c).1]) =
      escChar c := by
  by_cases h0 : c = 0
  · subst h0; rfl
  by_cases h10 : c = 10
  · subst h10; rfl
  by_cases h13 : c = 13
  · subst h13; rfl
  by_cases h92 : c = 92
  · subst h92; rfl
  by_cases h39 : c = 39
  · subst h39; rfl
  by_cases h34 : c = 34
  · subst h34; rfl
  by_cases h26 : c = 26
  · subst h26; rfl
  simp [escapeSwitch, escChar, h0, h10, h13, h92, h39, h34, h26]

/-- The imperative write loop computes exactly the concatenation of the
per-byte encodings. -/
lemma escapeString_eq_flat (bs : List Nat) :
    escapeString bs = (bs.map escChar).flatten := by
  induction bs with
  | nil => simp [escapeString, escapeLoop]
  | cons c rest ih =>
      rw [escapeString, escapeLoop, escapeLoop_append]
      rw [escapeString] at ih
      rw [ih]
      simp only [List.map_cons, List.flatten_cons, List.nil_append]
      rw [escapeSwitch_spec]

lemma decodeSqlBody_cons_esc (d : Nat) (l : List Nat) :
    decodeSqlBody (92 :: d :: l) = decodeEsc d :: decodeSqlBody l := by
  simp [decodeSqlBody]

lemma decodeSqlBody_cons (c : Nat) (l : List Nat) (h : c ≠ 92) :
    decodeSqlBody (c :: l) = c :: decodeSqlBody l := by
  cases l with
  | nil => simp [decodeSqlBody, h]
  | cons d rest => simp [decodeSqlBody, h]

lemma decode_escChar (c : Nat) (l : List Nat) :
    decodeSqlBody (escChar c ++ l) = c :: decodeSqlBody l := by
  by_cases h0 : c = 0
  · subst h0; rw [show escChar 0 = [92, 48] from rfl]; rw [List.cons_append, List.cons_append,
      List.nil_append, decodeSqlBody_cons_esc]; rfl
  · by_cases h10 : c = 10
    · subst h10; rw [show escChar 10 = [92, 110] from rfl, List.cons_append, List.cons_append,
        List.nil_append, decodeSqlBody_cons_esc]; rfl
    · by_cases h13 : c = 13
      · subst h13; rw [show escChar 13 = [92, 114] from rfl, List.cons_append, List.cons_append,
          List.nil_append, decodeSqlBody_cons_esc]; rfl
      · by_cases h92 : c = 92
        · subst h92; rw [show escChar 92 = [92, 92] from rfl, List.cons_append, List.cons_append,
            List.nil_append, decodeSqlBody_cons_esc]; rfl
        · by_cases h39 : c = 39
          · subst h39; rw [show escChar 39 = [92, 39] from rfl, List.cons_append, List.cons_append,
              List.nil_append, decodeSqlBody_cons_esc]; rfl
          · by_cases h34 : c = 34
            · subst h34; rw [show escChar 34 = [92, 34] from rfl, List.cons_append,
                List.cons_append, List.nil_append, decodeSqlBody_cons_esc]; rfl
            · by_cases h26 : c = 26
              · subst h26; rw [show escChar 26 = [92, 90] from rfl, List.cons_append,
                  List.cons_append, List.nil_append, decodeSqlBody_cons_esc]; rfl
              · have he : escChar c = [c] := by
                  simp [escChar, h0, h10, h13, h92, h39, h34, h26]
                rw [he, List.cons_append, List.nil_append, decodeSqlBody_cons c _ h92]

/-- Claim C1: for every byte sequence `b`, parsing the single-quoted SQL
string literal body `escapeString b` with a standard SQL string-literal
decoder (un-escaping `\0`, `\n`, `\r`, `\Z`, `\\`, `\'`, `\"`) yields
exactly `b`: decode ∘ escape = id. -/
theorem escapeString_roundTrip (bs : List Nat) :
    decodeSqlBody (escapeString bs) = bs := by
  rw [escapeString_eq_flat]
  induction bs with
  | nil => rfl
  | cons c rest ih =>
      simp only [List.map_cons, List.flatten_cons]
      rw [decode_escChar, ih]

/-- Claim C2: `escapeString` maps each byte independently (0x00 → `\0`,
0x0A → `\n`, 0x0D → `\r`, 0x1A → `\Z`, backslash / single quote / double
quote → backslash then the byte, all other bytes unchanged) and its output
is the concatenation of the per-byte encodings in input order. -/
theorem escapeString_per_byte (bs : List Nat) :
    escapeString bs = (bs.map escChar).flatten :=
  escapeString_eq_flat bs

lemma escChar_length (c : Nat) : 1 ≤ (escChar c).length ∧ (escChar c).length ≤ 2 := by
  simp only [escChar]
  split_ifs <;> simp

/-- Claim C9: `escapeString` is total and in-bounds by construction: each
input byte contributes at most 2 output bytes, so the returned sequence for
an input of length n has length between n and 2*n — every index written
into the pre-allocated buffer of length 2*n is within bounds. -/
theorem escapeString_length_bounds (bs : List Nat) :
    bs.length ≤ (escapeString bs).length ∧ (escapeString bs).length ≤ 2 * bs.length := by
  rw [escapeString_eq_flat]
  induction bs with
  | nil => simp
  | cons c rest ih =>
      simp only [List.map_cons, List.flatten_cons, List.length_append, List.length_cons]
      obtain ⟨h1, h2⟩ := escChar_length c
      constructor
      · omega
      · omega

/-- A cell of a result row, as the Go type switch in the encoders sees a
driver value: a raw byte slice (text/binary columns), SQL NULL, or any other
scalar together with its default textual rendering (`fmt.Sprintf("%v", v)`). -/
inductive Cell where
  | bytes (bs : List Nat)
  | null
  | scalar (s : List Nat)
deriving DecidableEq

/-- The bytes `outSql` writes into the batch buffer for one cell
(src/mysqlquerydump.go:350-359): byte slices are escaped and single-quoted,
nil becomes `NULL`, anything else is its default rendering, unquoted. -/
def renderCell : Cell → List Nat
  | .bytes bs => [39] ++ escapeString bs ++ [39]
  | .null => strBytes "NULL"
  | .scalar s => s

/-- The inner per-row loop of `outSql`: each cell is written, followed by
`", "` whenever its index is below `len(columns) - 1`
(src/mysqlquerydump.go:350-364). -/
def renderCells (ncols : Nat) : Nat → List Cell → List Nat
  | _, [] => []
  | i, c :: rest =>
      renderCell c ++ (if i < ncols - 1 then strBytes ", " else []) ++
        renderCells ncols (i + 1) rest

/-- The full rendered tuple of one row: `"("` + cells + `")"`
(src/mysqlquerydump.go:349-365). -/
def renderTuple (ncols : Nat) (row : List Cell) : List Nat :=
  [40] ++ renderCells ncols 0 row ++ [41]

/-- The comma-joined backquoted field list (src/mysqlquerydump.go:313). -/
def sqlFields (columns : List (List Nat)) : List Nat :=
  strBytes "`" ++ List.intercalate (strBytes "`, `") columns ++ strBytes "`"

/-- The INSERT header written at the start of every batch
(src/mysqlquerydump.go:308-314). -/
def insertHeader (insertIgnore : Bool) (tableAlias : List Nat)
    (columns : List (List Nat)) : List Nat :=
  strBytes "INSERT " ++ (if insertIgnore then strBytes "IGNORE " else []) ++
    strBytes "INTO `" ++ tableAlias ++ strBytes "` (" ++ sqlFields columns ++
    strBytes ") VALUES\n"

/-- One item of the ON DUPLICATE KEY UPDATE clause
(src/mysqlquerydump.go:318). -/
def onDupItem (col : List Nat) : List Nat :=
  strBytes "`" ++ col ++ strBytes "` = VALUES(`" ++ col ++ strBytes "`)"

/-- The ON DUPLICATE KEY UPDATE clause (src/mysqlquerydump.go:316-322). -/
def onDupStatement (columns : List (List Nat)) : List Nat :=
  strBytes "\nON DUPLICATE KEY UPDATE\n" ++
    List.intercalate (strBytes ",\n") (columns.map onDupItem)

/-- The buffer content after the per-row appends of one loop iteration
(src/mysqlquerydump.go:341-365): the insert header if the buffer is empty,
then `",\n"` if the comma flag is set, then the rendered tuple. -/
def appendRow (ncols : Nat) (header : List Nat) (buf : List Nat) (coma : Bool)
    (row : List Cell) : List Nat :=
  (if buf.length = 0 then header else buf) ++
    (if coma then strBytes ",\n" else []) ++ renderTuple ncols row

/-- The row loop of `outSql` (src/mysqlquerydump.go:332-379), instrumented:
the result is `(flushes, states, finalBuffer)` where `flushes` records, for
each in-loop flush, the buffer content at the moment the threshold check
fired (before the duplicate-key clause and terminator) together with the
rendered tuple of the triggering row; `states` records the
`(buffer, printComa)` pair at the start of each iteration; `finalBuffer` is
the buffer still accumulating when the cursor is exhausted. -/
def outSqlLoop (ncols : Nat) (header : List Nat) (thr : Int) :
    List (List Cell) → List Nat → Bool →
      List (List Nat × List Nat) × List (List Nat × Bool) × List Nat
  | [], buf, _coma => ([], [], buf)
  | row :: rest, buf, coma =>
      if thr ≤ ((appendRow ncols header buf coma row).length : Int) then
        ((appendRow ncols header buf coma row, renderTuple ncols row) ::
            (outSqlLoop ncols header thr rest [] false).1,
          (buf, coma) :: (outSqlLoop ncols header thr rest [] false).2.1,
          (outSqlLoop ncols header thr rest [] false).2.2)
      else
        ((outSqlLoop ncols header thr rest (appendRow ncols header buf coma row) true).1,
          (buf, coma) ::
            (outSqlLoop ncols header thr rest (appendRow ncols header buf coma row) true).2.1,
          (outSqlLoop ncols header thr rest (appendRow ncols header buf coma row) true).2.2)

/-- Finalizing a batch before it is written (src/mysqlquerydump.go:367-372
and 381-387): append the duplicate-key clause if enabled, then `";\n"`. -/
def finalizeBatch (onDuplicateKeyUpdate : Bool) (dupStmt : List Nat)
    (pre : List Nat) : List Nat :=
  pre ++ (if onDuplicateKeyUpdate then dupStmt else []) ++ strBytes ";\n"

/-- The byte sequences written to the sink for the batches of one `outSql`
run, given the instrumented loop result: each in-loop flush finalized, then
the final below-threshold batch, if non-empty, finalized
(src/mysqlquerydump.go:367-387). -/
def sqlBatchWrites (onDuplicateKeyUpdate : Bool) (dupStmt : List Nat)
    (r : List (List Nat × List Nat) × List (List Nat × Bool) × List Nat) :
    List (List Nat) :=
  r.1.map (fun p => finalizeBatch onDuplicateKeyUpdate dupStmt p.1) ++
    (if r.2.2.length > 0 then [finalizeBatch onDuplicateKeyUpdate dupStmt r.2.2] else [])

/-- `MysqlOptions` (src/mysqlquerydump.go:23-31). -/
structure MysqlOptions where
  Host : String := ""
  User : String := ""
  Password : String := ""
  Database : String := ""
  Port : Nat := 0
  Charset : String := ""
  Timezone : String := ""
deriving DecidableEq

/-- `outSql` (src/mysqlquerydump.go:281-396), with the I/O made explicit:
the cursor's rows come in as a list, and the result is either the error
value returned before anything is written (empty alias) or the ordered
list of byte sequences written to the output sink: the character-set
preamble, the finalized batches, and the postamble. -/
def outSql (columns : List (List Nat)) (tableAlias : List Nat)
    (insertIgnore onDuplicateKeyUpdate : Bool) (batchSize : Int)
    (options : MysqlOptions) (rows : List (List Cell)) :
    Except (List Nat) (List (List Nat)) :=
  if tableAlias = [] then .error (strBytes "Alias must be specified for sql format")
  else
    let sqlBatchSize : Int := 1024 * batchSize
    let header := insertHeader insertIgnore tableAlias columns
    let dupStmt := onDupStatement columns
    let preamble := [strBytes "SET @OLD_CHARACTER_SET_CLIENT=@@CHARACTER_SET_CLIENT;\n",
      strBytes "SET @OLD_CHARACTER_SET_RESULTS=@@CHARACTER_SET_RESULTS;\n",
      strBytes "SET @OLD_COLLATION_CONNECTION=@@COLLATION_CONNECTION;\n",
      strBytes ("SET NAMES " ++ options.Charset ++ ";\n"),
      strBytes "\n"]
    let r := outSqlLoop columns.length header sqlBatchSize rows [] false
    let batches := sqlBatchWrites onDuplicateKeyUpdate dupStmt r
    let postamble := [strBytes "\n",
      strBytes "SET CHARACTER_SET_CLIENT=@OLD_CHARACTER_SET_CLIENT;\n",
      strBytes "SET CHARACTER_SET_RESULTS=@OLD_CHARACTER_SET_RESULTS;\n",
      strBytes "SET COLLATION_CONNECTION=@OLD_COLLATION_CONNECTION;\n"]
    .ok (preamble ++ batches ++ postamble)

lemma renderTuple_ne_nil (ncols : Nat) (row : List Cell) :
    renderTuple ncols row ≠ [] := by
  simp [renderTuple]

lemma appendRow_ne_nil (ncols : Nat) (header buf : List Nat) (coma : Bool)
    (row : List Cell) : appendRow ncols header buf coma row ≠ [] := by
  intro h
  have h2 := congrArg List.length h
  rw [appendRow, renderTuple] at h2
  simp only [List.length_append, List.length_cons, List.length_nil] at h2
  omega

lemma length_strBytes (s : String) : (strBytes s).length = s.length := by
  rw [strBytes, List.length_map]
  rfl

lemma strBytes_sep : strBytes ",\n" = [44, 10] := rfl

/-- Shape of the buffer after one iteration's appends, under the loop
invariants: it is always header-prefixed, and its length either sits within
threshold + 1 + tuple-length (buffer was non-empty, hence below threshold,
plus the 2-byte separator) or equals header-length + tuple-length (buffer
was empty). -/
lemma appendRow_shape (ncols : Nat) (header : List Nat) (thr : Int)
    (buf : List Nat) (coma : Bool) (row : List Cell)
    (hcoma : coma = true ↔ buf ≠ [])
    (hpre : buf = [] ∨ ∃ t, buf = header ++ t)
    (hlt : buf = [] ∨ (buf.length : Int) < thr) :
    (∃ t, appendRow ncols header buf coma row = header ++ t) ∧
      (((appendRow ncols header buf coma row).length : Int) ≤
          thr + 1 + (renderTuple ncols row).length ∨
        (appendRow ncols header buf coma row).length =
          header.length + (renderTuple ncols row).length) := by
  by_cases hb : buf = []
  · subst hb
    have hcf : coma = false := by
      cases coma with
      | false => rfl
      | true => exact absurd (hcoma.mp rfl) (by simp)
    subst hcf
    refine ⟨⟨renderTuple ncols row, ?_⟩, Or.inr ?_⟩
    · simp [appendRow]
    · simp [appendRow]
  · obtain ⟨t, ht⟩ := hpre.resolve_left hb
    have hct : coma = true := hcoma.mpr hb
    have hlen : (buf.length : Int) < thr := hlt.resolve_left hb
    subst hct
    have hb0 : ¬buf.length = 0 := by simpa [List.length_eq_zero] using hb
    have hif1 : (if buf.length = 0 then header else buf) = buf := if_neg hb0
    have harr : appendRow ncols header buf true row =
        header ++ (t ++ (strBytes ",\n" ++ renderTuple ncols row)) := by
      rw [appendRow, hif1, if_pos rfl, ht]
      simp [List.append_assoc]
    refine ⟨⟨t ++ (strBytes ",\n" ++ renderTuple ncols row), harr⟩, Or.inl ?_⟩
    have hl : (appendRow ncols header buf true row).length =
        buf.length + 2 + (renderTuple ncols row).length := by
      rw [appendRow, hif1, if_pos rfl, strBytes_sep]
      simp only [List.length_append, List.length_cons, List.length_nil]
    rw [hl]
    push_cast
    omega

/-- Master invariant of the outSql row loop: starting from a state where
the comma flag tracks buffer non-emptiness, the buffer is header-prefixed
when non-empty, and the buffer is below threshold when non-empty, every
in-loop flush fires at a buffer that (a) has reached the threshold, (b) is
header-prefixed, and (c) exceeds the threshold by at most tuple-length + 1
unless it consists of header + tuple alone; moreover every iteration-entry
state satisfies the comma/buffer invariant, and the final buffer is empty
or header-prefixed. -/
lemma outSqlLoop_master (ncols : Nat) (header : List Nat) (thr : Int)
    (rows : List (List Cell)) :
    ∀ (buf : List Nat) (coma : Bool),
      (coma = true ↔ buf ≠ []) →
      (buf = [] ∨ ∃ t, buf = header ++ t) →
      (buf = [] ∨ (buf.length : Int) < thr) →
      (∀ p ∈ (outSqlLoop ncols header thr rows buf coma).1,
          thr ≤ (p.1.length : Int) ∧ (∃ t, p.1 = header ++ t) ∧
          ((p.1.length : Int) ≤ thr + 1 + p.2.length ∨
            p.1.length = header.length + p.2.length)) ∧
      (∀ s ∈ (outSqlLoop ncols header thr rows buf coma).2.1,
          s.2 = true ↔ s.1 ≠ []) ∧
      ((outSqlLoop ncols header thr rows buf coma).2.2 = [] ∨
        ∃ t, (outSqlLoop ncols header thr rows buf coma).2.2 = header ++ t) := by
  induction rows with
  | nil =>
      intro buf coma hcoma hpre hlt
      refine ⟨?_, ?_, ?_⟩
      · intro p hp; simp [outSqlLoop] at hp
      · intro s hs; simp [outSqlLoop] at hs
      · simpa [outSqlLoop] using hpre
  | cons row rest ih =>
      intro buf coma hcoma hpre hlt
      obtain ⟨hhp, hbound⟩ := appendRow_shape ncols header thr buf coma row hcoma hpre hlt
      by_cases hc : thr ≤ ((appendRow ncols header buf coma row).length : Int)
      · have hrec := ih [] false (by simp) (Or.inl rfl) (Or.inl rfl)
        refine ⟨?_, ?_, ?_⟩
        · intro p hp
          rw [outSqlLoop] at hp
          simp only [if_pos hc, List.mem_cons] at hp
          rcases hp with hp | hp
          · subst hp
            refine ⟨hc, hhp, ?_⟩
            simpa using hbound
          · exact hrec.1 p hp
        · intro s hs
          rw [outSqlLoop] at hs
          simp only [if_pos hc, List.mem_cons] at hs
          rcases hs with hs | hs
          · subst hs; exact hcoma
          · exact hrec.2.1 s hs
        · rw [outSqlLoop]
          simp only [if_pos hc]
          exact hrec.2.2
      · have hne : appendRow ncols header buf coma row ≠ [] :=
          appendRow_ne_nil ncols header buf coma row
        have hrec := ih (appendRow ncols header buf coma row) true
          (by simp [hne]) (Or.inr hhp) (Or.inr (lt_of_not_le hc))
        refine ⟨?_, ?_, ?_⟩
        · intro p hp
          rw [outSqlLoop] at hp
          simp only [if_neg hc] at hp
          exact hrec.1 p hp
        · intro s hs
          rw [outSqlLoop] at hs
          simp only [if_neg hc, List.mem_cons] at hs
          rcases hs with hs | hs
          · subst hs; exact hcoma
          · exact hrec.2.1 s hs
        · rw [outSqlLoop]
          simp only [if_neg hc]
          exact hrec.2.2

/-- Claim C3: for every row sequence and every positive batch size, every
batch flushed inside the row loop (every batch written to the sink except
possibly the final below-threshold one) has buffer byte-length, at the
moment the flush condition is checked — before the duplicate-key clause and
the `";\n"` terminator are appended — at least the threshold
1024 * batchSize bytes. -/
theorem sql_batches_reach_threshold (ncols : Nat) (header : List Nat)
    (batchSize : Int) (rows : List (List Cell)) (hpos : 0 < batchSize) :
    ∀ p ∈ (outSqlLoop ncols header (1024 * batchSize) rows [] false).1,
      1024 * batchSize ≤ (p.1.length : Int) := by
  intro p hp
  exact ((outSqlLoop_master ncols header (1024 * batchSize) rows [] false
    (by simp) (Or.inl rfl) (Or.inl rfl)).1 p hp).1

/-- Witness for `sql_batches_reach_threshold` at batch size 1 with one
single-column scalar row. -/
theorem sql_batches_reach_threshold_witness :
    (0 : Int) < 1 ∧
      ∀ p ∈ (outSqlLoop 1 (insertHeader false [116] [[97]]) (1024 * 1)
          [[Cell.scalar [49]]] [] false).1,
        1024 * 1 ≤ (p.1.length : Int) :=
  ⟨by decide,
    sql_batches_reach_threshold 1 (insertHeader false [116] [[97]]) 1
      [[Cell.scalar [49]]] (by decide)⟩

lemma outSqlLoop_nonpos (ncols : Nat) (header : List Nat) (thr : Int)
    (hthr : thr ≤ 0) (rows : List (List Cell)) :
    (outSqlLoop ncols header thr rows [] false).1 =
        rows.map (fun row => (header ++ renderTuple ncols row, renderTuple ncols row)) ∧
      (outSqlLoop ncols header thr rows [] false).2.2 = [] ∧
      ∀ s ∈ (outSqlLoop ncols header thr rows [] false).2.1,
        s.1 = [] ∧ s.2 = false := by
  induction rows with
  | nil => refine ⟨rfl, rfl, ?_⟩; intro s hs; simp [outSqlLoop] at hs
  | cons row rest ih =>
      have happ : appendRow ncols header [] false row =
          header ++ renderTuple ncols row := by
        simp [appendRow]
      have hc : thr ≤ ((appendRow ncols header [] false row).length : Int) := by
        refine le_trans hthr ?_
        positivity
      refine ⟨?_, ?_, ?_⟩
      · rw [outSqlLoop]
        simp only [if_pos hc, List.map_cons]
        rw [ih.1, happ]
      · rw [outSqlLoop]
        simp only [if_pos hc]
        exact ih.2.1
      · intro s hs
        rw [outSqlLoop] at hs
        simp only [if_pos hc, List.mem_cons] at hs
        rcases hs with hs | hs
        · subst hs; exact ⟨rfl, rfl⟩
        · exact ih.2.2 s hs

/-- Claim C4: with a batch size of zero or negative, the SQL encoder
flushes after every row: the in-loop flushes are exactly one complete
header + tuple batch per row, in order; the buffer left at cursor
exhaustion is empty (nothing is withheld), and every iteration starts with
an empty buffer and a cleared comma flag — the encoder always makes
progress. -/
theorem sql_nonpositive_batch_flushes_every_row (ncols : Nat)
    (header : List Nat) (batchSize : Int) (rows : List (List Cell))
    (hnp : batchSize ≤ 0) :
    (outSqlLoop ncols header (1024 * batchSize) rows [] false).1 =
        rows.map (fun row => (header ++ renderTuple ncols row, renderTuple ncols row)) ∧
      (outSqlLoop ncols header (1024 * batchSize) rows [] false).2.2 = [] ∧
      ∀ s ∈ (outSqlLoop ncols header (1024 * batchSize) rows [] false).2.1,
        s.1 = [] ∧ s.2 = false :=
  outSqlLoop_nonpos ncols header (1024 * batchSize) (by omega) rows

/-- Witness for `sql_nonpositive_batch_flushes_every_row` at batch size 0
with two single-column rows. -/
theorem sql_nonpositive_batch_flushes_every_row_witness :
    (0 : Int) ≤ 0 ∧
      ((outSqlLoop 1 (insertHeader false [116] [[97]]) (1024 * 0)
          [[Cell.null], [Cell.scalar [49]]] [] false).1 =
        [[Cell.null], [Cell.scalar [49]]].map
          (fun row => ((insertHeader false [116] [[97]]) ++ renderTuple 1 row,
            renderTuple 1 row)) ∧
      (outSqlLoop 1 (insertHeader false [116] [[97]]) (1024 * 0)
          [[Cell.null], [Cell.scalar [49]]] [] false).2.2 = [] ∧
      ∀ s ∈ (outSqlLoop 1 (insertHeader false [116] [[97]]) (1024 * 0)
          [[Cell.null], [Cell.scalar [49]]] [] false).2.1,
        s.1 = [] ∧ s.2 = false) :=
  ⟨by decide,
    sql_nonpositive_batch_flushes_every_row 1 (insertHeader false [116] [[97]]) 0
      [[Cell.null], [Cell.scalar [49]]] (by decide)⟩

/-- Claim C5 counterexample: one column `a`, alias `t`, batch size 1
(threshold 1024).  The first row's tuple brings the buffer to 1023 bytes
(no flush); the second row's 3-byte tuple `(1)` plus the 2-byte `",\n"`
separator brings it to 1028, triggering a flush that exceeds the threshold
by 4 > 3 bytes; a third row follows, so that flush is not the final batch.
The excess can exceed the triggering tuple's length, contradicting the
claim as stated. -/
theorem sql_excess_counterexample :
    (outSqlLoop 1 (insertHeader false [116] [[97]]) (1024 * 1)
        [[Cell.scalar (List.replicate 992 97)], [Cell.scalar [49]], [Cell.scalar [49]]]
        [] false).1.length = 1 ∧
      (outSqlLoop 1 (insertHeader false [116] [[97]]) (1024 * 1)
        [[Cell.scalar (List.replicate 992 97)], [Cell.scalar [49]], [Cell.scalar [49]]]
        [] false).1.headI.1.length = 1028 ∧
      (outSqlLoop 1 (insertHeader false [116] [[97]]) (1024 * 1)
        [[Cell.scalar (List.replicate 992 97)], [Cell.scalar [49]], [Cell.scalar [49]]]
        [] false).1.headI.2.length = 3 ∧
      (outSqlLoop 1 (insertHeader false [116] [[97]]) (1024 * 1)
        [[Cell.scalar (List.replicate 992 97)], [Cell.scalar [49]], [Cell.scalar [49]]]
        [] false).2.2 ≠ [] ∧
      ¬(1028 - 1024 ≤ 3) := by
  set_option maxRecDepth 100000 in decide

/-- Claim C5 amended: for every non-final flushed SQL batch, either the
triggering row was appended to a non-empty buffer and the buffer length at
flush time exceeds the threshold by at most the rendered tuple's length
plus one (the buffer held at most threshold − 1 bytes and the `",\n"`
separator adds two), or the triggering row began its batch, in which case
the buffer length at flush time is exactly header length + tuple length
(which can exceed the threshold by more when the threshold is small). -/
theorem sql_excess_bound (ncols : Nat) (header : List Nat) (batchSize : Int)
    (rows : List (List Cell)) (hpos : 0 < batchSize) :
    ∀ p ∈ (outSqlLoop ncols header (1024 * batchSize) rows [] false).1,
      (p.1.length : Int) ≤ 1024 * batchSize + 1 + p.2.length ∨
        p.1.length = header.length + p.2.length := by
  intro p hp
  exact ((outSqlLoop_master ncols header (1024 * batchSize) rows [] false
    (by simp) (Or.inl rfl) (Or.inl rfl)).1 p hp).2.2

/-- Witness for `sql_excess_bound` at batch size 1 with one row. -/
theorem sql_excess_bound_witness :
    (0 : Int) < 1 ∧
      ∀ p ∈ (outSqlLoop 1 (insertHeader false [116] [[97]]) (1024 * 1)
          [[Cell.scalar [49]]] [] false).1,
        (p.1.length : Int) ≤ 1024 * 1 + 1 + p.2.length ∨
          p.1.length = (insertHeader false [116] [[97]]).length + p.2.length :=
  ⟨by decide,
    sql_excess_bound 1 (insertHeader false [116] [[97]]) 1
      [[Cell.scalar [49]]] (by decide)⟩

/-- Claim C8: at the start of every iteration of the outSql row loop, the
comma flag is set exactly when the batch buffer is non-empty; consequently
every batch written to the sink — each in-loop flush and the final one —
is one syntactically complete INSERT statement: it begins with the insert
header and ends with the `";\n"` terminator, with no leading or dangling
tuple separator. -/
theorem sql_batch_statement_shape (ncols : Nat) (header dupStmt : List Nat)
    (onDuplicateKeyUpdate : Bool) (thr : Int) (rows : List (List Cell)) :
    (∀ s ∈ (outSqlLoop ncols header thr rows [] false).2.1,
        s.2 = true ↔ s.1 ≠ []) ∧
      ∀ w ∈ sqlBatchWrites onDuplicateKeyUpdate dupStmt
          (outSqlLoop ncols header thr rows [] false),
        ∃ mid, w = header ++ mid ++ strBytes ";\n" := by
  have hm := outSqlLoop_master ncols header thr rows [] false
    (by simp) (Or.inl rfl) (Or.inl rfl)
  refine ⟨hm.2.1, ?_⟩
  intro w hw
  simp only [sqlBatchWrites, List.mem_append, List.mem_map] at hw
  rcases hw with ⟨p, hp, hfin⟩ | hw
  · obtain ⟨t, ht⟩ := ((hm.1 p hp).2.1)
    subst hfin
    refine ⟨t ++ (if onDuplicateKeyUpdate then dupStmt else []), ?_⟩
    rw [finalizeBatch, ht]
    simp [List.append_assoc]
  · by_cases hnil : (outSqlLoop ncols header thr rows [] false).2.2.length > 0
    · simp only [if_pos hnil, List.mem_singleton] at hw
      have hfb := hm.2.2
      rcases hfb with hfb | ⟨t, ht⟩
      · rw [hfb] at hnil; simp at hnil
      · subst hw
        refine ⟨t ++ (if onDuplicateKeyUpdate then dupStmt else []), ?_⟩
        rw [finalizeBatch, ht]
        simp [List.append_assoc]
    · simp only [if_neg hnil] at hw
      simp at hw

/-- Claim C6: requesting the SQL format with an empty table alias is a
configuration error: `outSql` returns the error value, nothing is written
to the sink (no character-set preamble, no batches), and the row cursor is
never consulted — the result is the same for every row list. -/
theorem outSql_empty_alias (columns : List (List Nat))
    (insertIgnore onDuplicateKeyUpdate : Bool) (batchSize : Int)
    (options : MysqlOptions) (rows rows2 : List (List Cell)) :
    outSql columns [] insertIgnore onDuplicateKeyUpdate batchSize options rows =
        Except.error (strBytes "Alias must be specified for sql format") ∧
      outSql columns [] insertIgnore onDuplicateKeyUpdate batchSize options rows =
        outSql columns [] insertIgnore onDuplicateKeyUpdate batchSize options rows2 := by
  constructor <;> simp [outSql]

/-- The value stored in the reused JSON mapping for one driver value
(src/mysqlquerydump.go:214-221): byte slices are converted to strings,
nil and other scalars are stored as-is. -/
inductive JVal where
  | str (bs : List Nat)
  | null
  | scalar (s : List Nat)
deriving DecidableEq

/-- The type switch of the outJson row loop (src/mysqlquerydump.go:215-220). -/
def jsonValue : Cell → JVal
  | .bytes bs => .str bs
  | .null => .null
  | .scalar s => .scalar s

/-- Go map assignment `mapped[k] = v` on an association list: replace the
entry for `k` if present, otherwise add one. -/
def mapSet : List (List Nat × JVal) → List Nat → JVal → List (List Nat × JVal)
  | [], k, v => [(k, v)]
  | (k2, v2) :: rest, k, v =>
      if k2 = k then (k, v) :: rest else (k2, v2) :: mapSet rest k v

/-- The per-row assignment loop of outJson (src/mysqlquerydump.go:214-221):
every column's value is written into the shared mapping, keyed by the
column name at the same index. -/
def setRow (m : List (List Nat × JVal)) (columns : List (List Nat))
    (row : List Cell) : List (List Nat × JVal) :=
  (columns.zip row).foldl (fun m2 p => mapSet m2 p.1 (jsonValue p.2)) m

/-- The row loop of `outJson` (src/mysqlquerydump.go:207-230), with the I/O
made explicit: one mapping object is allocated before the loop, reused and
overwritten across rows; after each row its current state is serialized as
one JSON object and written as one line.  The result is the list of mapping
snapshots at the successive serialization points, one per written line, in
row order. -/
def outJsonLoop (columns : List (List Nat)) :
    List (List Cell) → List (List Nat × JVal) → List (List (List Nat × JVal))
  | [], _m => []
  | row :: rest, m =>
      setRow m columns row :: outJsonLoop columns rest (setRow m columns row)

/-- `outJson` (src/mysqlquerydump.go:194-233): the row loop started with the
freshly allocated empty mapping. -/
def outJson (columns : List (List Nat)) (rows : List (List Cell)) :
    List (List (List Nat × JVal)) :=
  outJsonLoop columns rows []

/-- The key list of a mapping snapshot. -/
def mapKeys (m : List (List Nat × JVal)) : List (List Nat) := m.map Prod.fst

lemma mapKeys_mapSet_mem (m : List (List Nat × JVal)) (k : List Nat) (v : JVal)
    (h : k ∈ mapKeys m) : mapKeys (mapSet m k v) = mapKeys m := by
  induction m with
  | nil => simp [mapKeys] at h
  | cons e rest ih =>
      by_cases he : e.1 = k
      · rw [show mapSet (e :: rest) k v = (k, v) :: rest from by
          rw [show (e : List Nat × JVal) = (e.1, e.2) from rfl, mapSet, if_pos he]]
        simp [mapKeys, he]
      · rw [show mapSet (e :: rest) k v = e :: mapSet rest k v from by
          rw [show (e : List Nat × JVal) = (e.1, e.2) from rfl, mapSet, if_neg he]]
        have hk : k ∈ mapKeys rest := by
          simp only [mapKeys, List.map_cons, List.mem_cons] at h
          rcases h with h | h
          · exact absurd h.symm he
          · exact h
        simp only [mapKeys, List.map_cons]
        rw [show List.map Prod.fst (mapSet rest k v) = mapKeys (mapSet rest k v) from rfl,
          ih hk]
        rfl

lemma mapKeys_mapSet_nmem (m : List (List Nat × JVal)) (k : List Nat) (v : JVal)
    (h : k ∉ mapKeys m) : mapKeys (mapSet m k v) = mapKeys m ++ [k] := by
  induction m with
  | nil => rfl
  | cons e rest ih =>
      have he : e.1 ≠ k := by
        intro hek
        exact h (by simp [mapKeys, hek])
      rw [show mapSet (e :: rest) k v = e :: mapSet rest k v from by
        rw [show (e : List Nat × JVal) = (e.1, e.2) from rfl, mapSet, if_neg he]]
      have hk : k ∉ mapKeys rest := by
        intro hk
        exact h (by simp [mapKeys] at hk ⊢; exact Or.inr hk)
      simp only [mapKeys, List.map_cons]
      rw [show List.map Prod.fst (mapSet rest k v) = mapKeys (mapSet rest k v) from rfl,
        ih hk]
      rfl

lemma setRow_keys_fresh (columns : List (List Nat)) :
    ∀ (row : List Cell) (m : List (List Nat × JVal)),
      columns.Nodup → row.length = columns.length →
      (∀ k ∈ columns, k ∉ mapKeys m) →
      mapKeys (setRow m columns row) = mapKeys m ++ columns := by
  induction columns with
  | nil => intro row m _ _ _; simp [setRow]
  | cons k cols ih =>
      intro row m hnd hlen hdisj
      cases row with
      | nil => simp at hlen
      | cons c rest =>
          have hstep : setRow m (k :: cols) (c :: rest) =
              setRow (mapSet m k (jsonValue c)) cols rest := by
            simp [setRow, List.zip_cons_cons]
          rw [hstep]
          have hk : k ∉ mapKeys m := hdisj k (by simp)
          have hkeys := mapKeys_mapSet_nmem m k (jsonValue c) hk
          have hnd2 : cols.Nodup := (List.nodup_cons.mp hnd).2
          have hknc : k ∉ cols := (List.nodup_cons.mp hnd).1
          have hlen2 : rest.length = cols.length := by
            simpa using hlen
          have hdisj2 : ∀ k2 ∈ cols, k2 ∉ mapKeys (mapSet m k (jsonValue c)) := by
            intro k2 hk2
            rw [hkeys]
            simp only [List.mem_append, List.mem_singleton]
            rintro (h | h)
            · exact hdisj k2 (by simp [hk2]) h
            · exact hknc (h ▸ hk2)
          rw [ih rest (mapSet m k (jsonValue c)) hnd2 hlen2 hdisj2, hkeys]
          simp

lemma setRow_keys_overwrite (columns : List (List Nat)) :
    ∀ (row : List Cell) (m : List (List Nat × JVal)),
      row.length = columns.length →
      (∀ k ∈ columns, k ∈ mapKeys m) →
      mapKeys (setRow m columns row) = mapKeys m := by
  induction columns with
  | nil => intro row m _ _; simp [setRow]
  | cons k cols ih =>
      intro row m hlen hsub
      cases row with
      | nil => simp at hlen
      | cons c rest =>
          have hstep : setRow m (k :: cols) (c :: rest) =
              setRow (mapSet m k (jsonValue c)) cols rest := by
            simp [setRow, List.zip_cons_cons]
          rw [hstep]
          have hk : k ∈ mapKeys m := hsub k (by simp)
          have hkeys := mapKeys_mapSet_mem m k (jsonValue c) hk
          have hlen2 : rest.length = cols.length := by simpa using hlen
          have hsub2 : ∀ k2 ∈ cols, k2 ∈ mapKeys (mapSet m k (jsonValue c)) := by
            intro k2 hk2
            rw [hkeys]
            exact hsub k2 (by simp [hk2])
          rw [ih rest (mapSet m k (jsonValue c)) hlen2 hsub2, hkeys]

lemma outJsonLoop_keys (columns : List (List Nat)) (hnd : columns.Nodup)
    (rows : List (List Cell)) :
    ∀ (m : List (List Nat × JVal)),
      (∀ row ∈ rows, row.length = columns.length) →
      (m = [] ∨ mapKeys m = columns) →
      (outJsonLoop columns rows m).length = rows.length ∧
        ∀ line ∈ outJsonLoop columns rows m, mapKeys line = columns := by
  induction rows with
  | nil =>
      intro m _ _
      exact ⟨rfl, by intro line h; simp [outJsonLoop] at h⟩
  | cons row rest ih =>
      intro m hlen hm
      have hrow : row.length = columns.length := hlen row (by simp)
      have hkeys : mapKeys (setRow m columns row) = columns := by
        rcases hm with hm | hm
        · subst hm
          have := setRow_keys_fresh columns row [] hnd hrow
            (by intro k _; simp [mapKeys])
          simpa [mapKeys] using this
        · rw [setRow_keys_overwrite columns row m hrow (by intro k hk; rw [hm]; exact hk)]
          exact hm
      have hrec := ih (setRow m columns row)
        (by intro r hr; exact hlen r (by simp [hr])) (Or.inr hkeys)
      refine ⟨?_, ?_⟩
      · simp only [outJsonLoop, List.length_cons]
        rw [hrec.1]
      · intro line hline
        simp only [outJsonLoop, List.mem_cons] at hline
        rcases hline with hline | hline
        · subst hline; exact hkeys
        · exact hrec.2 line hline

/-- Claim C7: for every row of the cursor, the JSON encoder serializes
exactly one line, and the key list of the mapping at each serialization
point is exactly the ColumnSet — every column name is a key and no other
key appears — even though the mapping object is reused and overwritten
across rows (hypotheses: the column names are distinct and every row has
one cell per column, as the cursor guarantees). -/
theorem outJson_one_line_per_row_keys_eq_columns (columns : List (List Nat))
    (rows : List (List Cell)) (hnd : columns.Nodup)
    (hlen : ∀ row ∈ rows, row.length = columns.length) :
    (outJson columns rows).length = rows.length ∧
      ∀ line ∈ outJson columns rows, mapKeys line = columns :=
  outJsonLoop_keys columns hnd rows [] hlen (Or.inl rfl)

/-- Witness for `outJson_one_line_per_row_keys_eq_columns`: two columns,
two rows mixing byte, null and scalar cells. -/
theorem outJson_one_line_per_row_keys_eq_columns_witness :
    ([[97], [98]] : List (List Nat)).Nodup ∧
      (∀ row ∈ [[Cell.bytes [1], Cell.null], [Cell.scalar [49], Cell.bytes []]],
        List.length row = ([[97], [98]] : List (List Nat)).length) ∧
      ((outJson [[97], [98]]
          [[Cell.bytes [1], Cell.null], [Cell.scalar [49], Cell.bytes []]]).length = 2 ∧
        ∀ line ∈ outJson [[97], [98]]
            [[Cell.bytes [1], Cell.null], [Cell.scalar [49], Cell.bytes []]],
          mapKeys line = [[97], [98]]) :=
  ⟨by decide, by decide,
    outJson_one_line_per_row_keys_eq_columns [[97], [98]]
      [[Cell.bytes [1], Cell.null], [Cell.scalar [49], Cell.bytes []]]
      (by decide) (by decide)⟩

/-- `MysqlOptions.Extend` (src/mysqlquerydump.go:33-55): overwrite each
field with the extra value when that value is non-zero. -/
def MysqlOptions.Extend (options extra : MysqlOptions) : MysqlOptions where
  Host := if extra.Host ≠ "" then extra.Host else options.Host
  User := if extra.User ≠ "" then extra.User else options.User
  Password := if extra.Password ≠ "" then extra.Password else options.Password
  Database := if extra.Database ≠ "" then extra.Database else options.Database
  Port := if extra.Port ≠ 0 then extra.Port else options.Port
  Charset := if extra.Charset ≠ "" then extra.Charset else options.Charset
  Timezone := if extra.Timezone ≠ "" then extra.Timezone else options.Timezone

/-- `getDbOptions` (src/mysqlquerydump.go:157-192), with the I/O made
explicit: the default credentials file (`~/.my.cnf`, when it exists) and
the optional override file are parsed by collaborators; their parsed
contents enter here as optional parameters.  The charset is hard-coded to
"utf8" (src/mysqlquerydump.go:179-181) before the final extension. -/
def getDbOptions (host user database : String) (port : Nat)
    (defaultOptions extraOptions : Option MysqlOptions) : MysqlOptions :=
  let options : MysqlOptions := { Host := "localhost", Port := 3306 }
  let options := match defaultOptions with
    | some d => options.Extend d
    | none => options
  let options := match extraOptions with
    | some e => options.Extend e
    | none => options
  let charset := "utf8"
  options.Extend
    { Host := host, User := user, Database := database, Charset := charset,
      Port := port }

/-- Claim C10: whatever charset the default or override configuration file
carries, `getDbOptions` always ends with Charset = "utf8", and consequently
the SQL-mode session preamble written by `outSql` (whenever it writes at
all, i.e. the alias is non-empty) contains the statement
`SET NAMES utf8;`. -/
theorem getDbOptions_charset_always_utf8 (host user database : String)
    (port : Nat) (dflt extra : Option MysqlOptions)
    (columns : List (List Nat)) (tableAlias : List Nat)
    (insertIgnore onDuplicateKeyUpdate : Bool) (batchSize : Int)
    (rows : List (List Cell)) (halias : tableAlias ≠ []) :
    (getDbOptions host user database port dflt extra).Charset = "utf8" ∧
      ∃ ws, outSql columns tableAlias insertIgnore onDuplicateKeyUpdate batchSize
          (getDbOptions host user database port dflt extra) rows = Except.ok ws ∧
        strBytes "SET NAMES utf8;\n" ∈ ws := by
  have hcs : (getDbOptions host user database port dflt extra).Charset = "utf8" := by
    cases dflt <;> cases extra <;> rfl
  refine ⟨hcs, ?_⟩
  rw [outSql, if_neg halias]
  refine ⟨_, rfl, ?_⟩
  rw [hcs]
  have hmem : strBytes "SET NAMES utf8;\n" ∈
      [strBytes "SET @OLD_CHARACTER_SET_CLIENT=@@CHARACTER_SET_CLIENT;\n",
        strBytes "SET @OLD_CHARACTER_SET_RESULTS=@@CHARACTER_SET_RESULTS;\n",
        strBytes "SET @OLD_COLLATION_CONNECTION=@@COLLATION_CONNECTION;\n",
        strBytes ("SET NAMES " ++ "utf8" ++ ";\n"),
        strBytes "\n"] := by
    have : strBytes ("SET NAMES " ++ "utf8" ++ ";\n") = strBytes "SET NAMES utf8;\n" := rfl
    rw [this]
    simp
  exact List.mem_append_left _ (List.mem_append_left _ hmem)

/-- Witness for `getDbOptions_charset_always_utf8`: one column, alias `t`,
an override file carrying charset "latin1", one row. -/
theorem getDbOptions_charset_always_utf8_witness :
    ([116] : List Nat) ≠ [] ∧
      ((getDbOptions "h" "u" "d" 3307 none
          (some { Charset := "latin1" })).Charset = "utf8" ∧
        ∃ ws, outSql [[97]] [116] false false 1
            (getDbOptions "h" "u" "d" 3307 none (some { Charset := "latin1" }))
            [[Cell.null]] = Except.ok ws ∧
          strBytes "SET NAMES utf8;\n" ∈ ws) :=
  ⟨by decide,
    getDbOptions_charset_always_utf8 "h" "u" "d" 3307 none
      (some { Charset := "latin1" }) [[97]] [116] false false 1 [[Cell.null]]
      (by decide)⟩

end MysqlQueryDump
